import Mathlib

/-!
Shallow embedding of src/mini_compiler.py: a mini compiler for basic math
(lexer, recursive-descent parser, stack-bytecode generator, virtual machine).

Numbers are modelled as exact rationals. Python's `int` and `float` values
both embed into the rationals; this is exact for every integer computation
and every finite decimal literal appearing in the claims. Host float
rounding of non-dyadic results, and float or complex results of `a ** b`
with a non-integer exponent, are outside the rational domain and are marked
by an explicit error constructor in the embedding, with a comment at the
definition. No claim under verification depends on those cases.

The parser and lexer of the source mutate a cursor index; here each scanning
function consumes a list and returns the unconsumed suffix. Recursion that
is bounded in Python by token consumption is bounded here by a fuel
parameter that is always instantiated large enough for the input at hand.
-/

deriving instance DecidableEq for Except

namespace MiniCompiler

/-! ## Tokens (class Lexer, class Token) -/

/-- Token kind together with its payload. The Python `Token` dataclass keeps
`type` and `value` in two fields; here a kind that carries a payload
(NUMBER, IDENT) carries it directly. -/
inductive TokT where
  | NUMBER (v : ℚ)
  | IDENT (s : String)
  | PRINT
  | PLUS
  | MINUS
  | MUL
  | DIV
  | POW
  | LPAREN
  | RPAREN
  | ASSIGN
  | EOF
deriving DecidableEq

/-- A token: kind plus source offset (the Python field `pos`). -/
structure Token where
  t : TokT
  pos : Nat
deriving DecidableEq

/-- Lexical failures: the "Unexpected character" SyntaxError of
`Lexer.tokens`.  `fuel` is the artefact of the fuel-bounded recursion and is
unreachable at the fuel used by `lexer`. -/
inductive LexErr where
  | unexpectedChar (c : Char) (pos : Nat)
  | fuel
deriving DecidableEq

/-- `Lexer.number` scanning loop: consume digits and at most one decimal
point; a second decimal point ends the literal.  Returns the consumed
characters and the unconsumed suffix. -/
def scanNum : List Char → Bool → List Char × List Char
  | [], _ => ([], [])
  | c :: cs, dotSeen =>
    if c.isDigit then
      let (ds, r) := scanNum cs dotSeen
      (c :: ds, r)
    else if c = '.' then
      if dotSeen then ([], c :: cs)
      else
        let (ds, r) := scanNum cs true
        (c :: ds, r)
    else ([], c :: cs)

/-- Value of a run of decimal digits. -/
def digitsToNat (ds : List Char) : Nat :=
  ds.foldl (fun a c => a * 10 + (c.toNat - 48)) 0

/-- Numeric value of a scanned literal: `int(num)` when no decimal point was
consumed, else the exact value of the decimal fraction (`float(num)` in the
source; exact rationals agree with the float on every literal used in the
claims). -/
def numVal (ds : List Char) : ℚ :=
  let ip := ds.takeWhile (fun c => c != '.')
  let rest := ds.dropWhile (fun c => c != '.')
  match rest with
  | [] => (digitsToNat ip : ℚ)
  | _ :: fr => (digitsToNat ip : ℚ) + (digitsToNat fr : ℚ) / ((10 : ℚ) ^ fr.length)

/-- `Lexer.ident` scanning loop: maximal run of alphanumerics and
underscore. -/
def scanIdent : List Char → List Char × List Char
  | [] => ([], [])
  | c :: cs =>
    if c.isAlphanum ∨ c = '_' then
      let (ds, r) := scanIdent cs
      (c :: ds, r)
    else ([], c :: cs)

/-- `Lexer.tokens`: the main scanning loop.  Each iteration consumes at
least one character, so fuel `length + 1` (used by `lexer`) always
suffices. -/
def lexLoop : Nat → List Char → Nat → Except LexErr (List Token)
  | 0, _, _ => .error .fuel
  | _ + 1, [], pos => .ok [⟨.EOF, pos⟩]
  | f + 1, c :: cs, pos =>
    if c.isWhitespace then lexLoop f cs (pos + 1)
    else if c.isDigit then
      let (ds, rest) := scanNum (c :: cs) false
      match lexLoop f rest (pos + ds.length) with
      | .error e => .error e
      | .ok more => .ok (⟨.NUMBER (numVal ds), pos⟩ :: more)
    else if c.isAlpha ∨ c = '_' then
      let (ds, rest) := scanIdent (c :: cs)
      let s := String.mk ds
      match lexLoop f rest (pos + ds.length) with
      | .error e => .error e
      | .ok more =>
        .ok ((if s = "print" then Token.mk .PRINT pos else Token.mk (.IDENT s) pos) :: more)
    else if c = '+' then (lexLoop f cs (pos + 1)).map (⟨.PLUS, pos⟩ :: ·)
    else if c = '-' then (lexLoop f cs (pos + 1)).map (⟨.MINUS, pos⟩ :: ·)
    else if c = '*' then (lexLoop f cs (pos + 1)).map (⟨.MUL, pos⟩ :: ·)
    else if c = '/' then (lexLoop f cs (pos + 1)).map (⟨.DIV, pos⟩ :: ·)
    else if c = '^' then (lexLoop f cs (pos + 1)).map (⟨.POW, pos⟩ :: ·)
    else if c = '(' then (lexLoop f cs (pos + 1)).map (⟨.LPAREN, pos⟩ :: ·)
    else if c = ')' then (lexLoop f cs (pos + 1)).map (⟨.RPAREN, pos⟩ :: ·)
    else if c = '=' then (lexLoop f cs (pos + 1)).map (⟨.ASSIGN, pos⟩ :: ·)
    else .error (.unexpectedChar c pos)

/-- `Lexer(text).tokens()`. -/
def lexer (line : String) : Except LexErr (List Token) :=
  lexLoop (line.length + 1) line.toList 0

/-! ## AST (dataclasses Num, Var, BinOp, UnaryOp, Assign, PrintStmt) -/

/-- The six AST node variants of the source, with operators kept as the
strings the parser stores in them. -/
inductive AST where
  | Num (value : ℚ)
  | Var (name : String)
  | BinOp (op : String) (left right : AST)
  | UnaryOp (op : String) (expr : AST)
  | Assign (name : String) (expr : AST)
  | PrintStmt (expr : AST)
deriving DecidableEq

/-! ## Parser (class Parser) -/

/-- Parse failures: the SyntaxError channels of `Parser.eat` ("Expected X
but found Y at pos N") and `Parser.primary` ("Unexpected token T at pos N");
message text is abstracted to the expected kind and the offset.  `fuel` is
the fuel artefact, unreachable at the fuel used by `parse`. -/
inductive PErr where
  | expected (kind : String) (pos : Nat)
  | unexpectedTok (pos : Nat)
  | fuel
deriving DecidableEq

mutual

/-- `Parser.expr`: `term (('+' | '-') term)*`, left-associative. -/
def parseExpr : Nat → List Token → Except PErr (AST × List Token)
  | 0, _ => .error .fuel
  | f + 1, ts =>
    match parseTerm f ts with
    | .error e => .error e
    | .ok (n, ts1) => exprLoop f n ts1

/-- The `while` loop of `Parser.expr`. -/
def exprLoop : Nat → AST → List Token → Except PErr (AST × List Token)
  | 0, _, _ => .error .fuel
  | f + 1, node, ts =>
    match ts with
    | ⟨.PLUS, _⟩ :: ts1 =>
      match parseTerm f ts1 with
      | .error e => .error e
      | .ok (m, ts2) => exprLoop f (.BinOp "+" node m) ts2
    | ⟨.MINUS, _⟩ :: ts1 =>
      match parseTerm f ts1 with
      | .error e => .error e
      | .ok (m, ts2) => exprLoop f (.BinOp "-" node m) ts2
    | _ => .ok (node, ts)

/-- `Parser.term`: `power (('*' | '/') power)*`, left-associative. -/
def parseTerm : Nat → List Token → Except PErr (AST × List Token)
  | 0, _ => .error .fuel
  | f + 1, ts =>
    match parsePower f ts with
    | .error e => .error e
    | .ok (n, ts1) => termLoop f n ts1

/-- The `while` loop of `Parser.term`. -/
def termLoop : Nat → AST → List Token → Except PErr (AST × List Token)
  | 0, _, _ => .error .fuel
  | f + 1, node, ts =>
    match ts with
    | ⟨.MUL, _⟩ :: ts1 =>
      match parsePower f ts1 with
      | .error e => .error e
      | .ok (m, ts2) => termLoop f (.BinOp "*" node m) ts2
    | ⟨.DIV, _⟩ :: ts1 =>
      match parsePower f ts1 with
      | .error e => .error e
      | .ok (m, ts2) => termLoop f (.BinOp "/" node m) ts2
    | _ => .ok (node, ts)

/-- `Parser.power`: `unary ('^' power)?`, right-associative. -/
def parsePower : Nat → List Token → Except PErr (AST × List Token)
  | 0, _ => .error .fuel
  | f + 1, ts =>
    match parseUnary f ts with
    | .error e => .error e
    | .ok (n, ts1) =>
      match ts1 with
      | ⟨.POW, _⟩ :: ts2 =>
        match parsePower f ts2 with
        | .error e => .error e
        | .ok (m, ts3) => .ok (.BinOp "^" n m, ts3)
      | _ => .ok (n, ts1)

/-- `Parser.unary`: a leading `+` is consumed with no node built; a leading
`-` builds `UnaryOp "-"`; otherwise fall through to `primary`. -/
def parseUnary : Nat → List Token → Except PErr (AST × List Token)
  | 0, _ => .error .fuel
  | f + 1, ts =>
    match ts with
    | ⟨.PLUS, _⟩ :: ts1 => parseUnary f ts1
    | ⟨.MINUS, _⟩ :: ts1 =>
      match parseUnary f ts1 with
      | .error e => .error e
      | .ok (n, ts2) => .ok (.UnaryOp "-" n, ts2)
    | _ => parsePrimary f ts

/-- `Parser.primary`: NUMBER, IDENT, or a parenthesized `expr`. -/
def parsePrimary : Nat → List Token → Except PErr (AST × List Token)
  | 0, _ => .error .fuel
  | f + 1, ts =>
    match ts with
    | ⟨.NUMBER v, _⟩ :: ts1 => .ok (.Num v, ts1)
    | ⟨.IDENT x, _⟩ :: ts1 => .ok (.Var x, ts1)
    | ⟨.LPAREN, _⟩ :: ts1 =>
      match parseExpr f ts1 with
      | .error e => .error e
      | .ok (n, ts2) =>
        match ts2 with
        | ⟨.RPAREN, _⟩ :: ts3 => .ok (n, ts3)
        | t :: _ => .error (.expected "RPAREN" t.pos)
        | [] => .error (.expected "RPAREN" 0)
    | t :: _ => .error (.unexpectedTok t.pos)
    | [] => .error (.unexpectedTok 0)

end

/-- `Parser.parse`: one statement.  `print` takes an optional parenthesis
pair; an identifier is an assignment target exactly when the next token is
`=` (the one-token lookahead `self.tokens[self.i + 1]`); otherwise the line
is a bare expression statement.  No end-of-input check is performed after
the statement.  (An IDENT that is the very last token, with nothing after
it, would make the Python lookahead raise an IndexError; the lexer always
terminates its output with EOF, so that case is unreachable and falls to
the expression branch here.) -/
def parseStmt : Nat → List Token → Except PErr (AST × List Token)
  | 0, _ => .error .fuel
  | f + 1, ts =>
    match ts with
    | ⟨.PRINT, _⟩ :: ts1 =>
      match ts1 with
      | ⟨.LPAREN, _⟩ :: ts2 =>
        match parseExpr f ts2 with
        | .error e => .error e
        | .ok (e, ts3) =>
          match ts3 with
          | ⟨.RPAREN, _⟩ :: ts4 => .ok (.PrintStmt e, ts4)
          | t :: _ => .error (.expected "RPAREN" t.pos)
          | [] => .error (.expected "RPAREN" 0)
      | _ =>
        match parseExpr f ts1 with
        | .error e => .error e
        | .ok (e, ts2) => .ok (.PrintStmt e, ts2)
    | ⟨.IDENT x, _⟩ :: ⟨.ASSIGN, _⟩ :: ts2 =>
      match parseExpr f ts2 with
      | .error e => .error e
      | .ok (e, ts3) => .ok (.Assign x e, ts3)
    | _ => parseExpr f ts

/-- Fuel that always suffices for `parseStmt`: the descent chain
statement to expr to term to power to unary to primary is six calls deep
and every further recursion first consumes a token. -/
def parseFuel (ts : List Token) : Nat := 6 * ts.length + 6

/-- Top-level parse of a token list, as called by `compile_and_run`.
Returns the statement and the unconsumed suffix of the token list (the
source never inspects the final cursor position). -/
def parse (ts : List Token) : Except PErr (AST × List Token) :=
  parseStmt (parseFuel ts) ts

/-! ## Code generator (class Codegen) -/

/-- Bytecode instructions (`Instr` dataclass: opcode plus optional arg). -/
inductive Instr where
  | PUSH (v : ℚ)
  | LOAD (name : String)
  | STORE (name : String)
  | NEG
  | ADD
  | SUB
  | MUL
  | DIV
  | POW
  | PRINT
deriving DecidableEq

/-- Codegen failures: the two NotImplementedError channels of
`Codegen.gen`. -/
inductive GenErr where
  | notImplUnary (op : String)
  | notImplBin (op : String)
deriving DecidableEq

/-- The `if/elif` chain of `Codegen.gen` for binary operators, factored as
the operator-to-opcode table. -/
def binInstr : String → Option Instr
  | "+" => some .ADD
  | "-" => some .SUB
  | "*" => some .MUL
  | "/" => some .DIV
  | "^" => some .POW
  | _ => none

/-- `Codegen.gen`: structural traversal emitting a linear instruction
sequence (the source appends to `self.code`; here the emitted lists are
concatenated, which yields the same sequence).  The six AST variants are
all matched above the source's final `else` fallback, so that fallback is
unreachable for any AST value and has no counterpart here. -/
def gen : AST → Except GenErr (List Instr)
  | .Num v => .ok [.PUSH v]
  | .Var x => .ok [.LOAD x]
  | .UnaryOp op e =>
    match gen e with
    | .error er => .error er
    | .ok ce => if op = "-" then .ok (ce ++ [.NEG]) else .error (.notImplUnary op)
  | .BinOp op l r =>
    match gen l, gen r with
    | .error er, _ => .error er
    | _, .error er => .error er
    | .ok cl, .ok cr =>
      match binInstr op with
      | some i => .ok (cl ++ cr ++ [i])
      | none => .error (.notImplBin op)
  | .Assign x e =>
    match gen e with
    | .error er => .error er
    | .ok ce => .ok (ce ++ [.STORE x])
  | .PrintStmt e =>
    match gen e with
    | .error er => .error er
    | .ok ce => .ok (ce ++ [.PRINT])

/-! ## Virtual machine (class VM) -/

/-- Runtime failures: NameError for LOAD of an unbound name,
ZeroDivisionError for DIV, the two failure channels of `a ** b` (zero base
with negative exponent raises ZeroDivisionError in the host; a non-integer
exponent produces a host float or complex value, which has no exact
rational counterpart and is modelled as this explicit error), and stack
underflow (the IndexError of popping an empty Python list). The "Unknown
instruction" RuntimeError has no counterpart: `Instr` is closed. -/
inductive RunErr where
  | undefinedVariable (name : String)
  | divisionByZero
  | zeroPowNegative
  | nonIntegerExponent
  | underflow
deriving DecidableEq

/-- First binding wins, as in a Python dict read. -/
def lookupEnv (x : String) : List (String × ℚ) → Option ℚ
  | [] => none
  | (y, v) :: r => if y = x then some v else lookupEnv x r

/-- Overwrite the binding if present, else append: the write behaviour of
`self.env[arg] = val`. -/
def setEnv (x : String) (v : ℚ) : List (String × ℚ) → List (String × ℚ)
  | [] => [(x, v)]
  | (y, w) :: r => if y = x then (x, v) :: r else (y, w) :: setEnv x v r

/-- `a ** b` of the host, restricted to exact rational results: integral
exponents (including negative ones on a nonzero base).  `0 ** negative`
raises ZeroDivisionError in the host.  A non-integer exponent yields a host
float (or complex for a negative base) and is modelled as an error; no
claim exercises that case. -/
def qpow (a b : ℚ) : Except RunErr ℚ :=
  if b.den = 1 then
    if 0 ≤ b.num then .ok (a ^ b.num.toNat)
    else if a = 0 then .error .zeroPowNegative
    else .ok (a ^ b.num)
  else .error .nonIntegerExponent

/-- The VM's mutable state: operand stack, variable environment, and the
values printed so far (stdout). -/
structure VMState where
  stack : List ℚ
  env : List (String × ℚ)
  out : List ℚ
deriving DecidableEq

/-- One iteration of the dispatch loop in `VM.run`.  On failure the
returned state is the state at the moment the Python exception is raised:
pops that already happened stand (e.g. DIV by zero pops both operands
before the division raises). -/
def exec1 (ins : Instr) (st : VMState) : VMState × Option RunErr :=
  match ins with
  | .PUSH v => ({ st with stack := v :: st.stack }, none)
  | .LOAD x =>
    match lookupEnv x st.env with
    | none => (st, some (.undefinedVariable x))
    | some v => ({ st with stack := v :: st.stack }, none)
  | .STORE x =>
    match st.stack with
    | [] => (st, some .underflow)
    | v :: s => ({ stack := s, env := setEnv x v st.env, out := st.out }, none)
  | .NEG =>
    match st.stack with
    | [] => (st, some .underflow)
    | a :: s => ({ st with stack := (-a) :: s }, none)
  | .ADD =>
    match st.stack with
    | b :: a :: s => ({ st with stack := (a + b) :: s }, none)
    | _ => ({ st with stack := [] }, some .underflow)
  | .SUB =>
    match st.stack with
    | b :: a :: s => ({ st with stack := (a - b) :: s }, none)
    | _ => ({ st with stack := [] }, some .underflow)
  | .MUL =>
    match st.stack with
    | b :: a :: s => ({ st with stack := (a * b) :: s }, none)
    | _ => ({ st with stack := [] }, some .underflow)
  | .DIV =>
    match st.stack with
    | b :: a :: s =>
      if b = 0 then ({ st with stack := s }, some .divisionByZero)
      else ({ st with stack := (a / b) :: s }, none)
    | _ => ({ st with stack := [] }, some .underflow)
  | .POW =>
    match st.stack with
    | b :: a :: s =>
      match qpow a b with
      | .ok v => ({ st with stack := v :: s }, none)
      | .error er => ({ st with stack := s }, some er)
    | _ => ({ st with stack := [] }, some .underflow)
  | .PRINT =>
    match st.stack with
    | [] => (st, some .underflow)
    | v :: s => ({ st with stack := s, out := st.out ++ [v] }, none)

/-- `VM.run`: execute the instruction sequence top to bottom; the first
failure aborts, leaving the state at the failure point. -/
def run : List Instr → VMState → VMState × Option RunErr
  | [], st => (st, none)
  | ins :: rest, st =>
    match exec1 ins st with
    | (st1, none) => run rest st1
    | (st1, some e) => (st1, some e)

/-! ## Driver (compile_and_run) -/

/-- The error channels surfaced by `compile_and_run`, by pipeline stage. -/
inductive CErr where
  | lex (e : LexErr)
  | syn (e : PErr)
  | cgen (e : GenErr)
  | exe (e : RunErr)
deriving DecidableEq

/-- The lex-then-parse front half of `compile_and_run`. -/
def parseLine (line : String) : Except CErr (AST × List Token) :=
  match lexer line with
  | .error e => .error (.lex e)
  | .ok ts =>
    match parse ts with
    | .error e => .error (.syn e)
    | .ok r => .ok r

/-- `compile_and_run(line, vm)`: lex, parse, generate, execute against the
given VM state.  A failure before execution leaves the state untouched; a
failure during execution leaves the partially mutated state, exactly as the
Python `vm` object survives the raised exception. -/
def compileAndRun (line : String) (vm : VMState) : VMState × Option CErr :=
  match parseLine line with
  | .error e => (vm, some e)
  | .ok (s, _) =>
    match gen s with
    | .error e => (vm, some (.cgen e))
    | .ok code =>
      match run code vm with
      | (vm1, none) => (vm1, none)
      | (vm1, some e) => (vm1, some (.exe e))

/-! ## Semantics used to state the claims

`exprEval` is the denotation of an expression node against an environment:
the value its generated code leaves on the stack, or the runtime error its
execution raises.  `applyOp` mirrors, operator by operator, the arithmetic
the VM dispatch performs. -/

/-- The arithmetic performed by the VM for a binary opcode, keyed by the
operator string the code generator translates. -/
def applyOp (op : String) (a b : ℚ) : Except RunErr ℚ :=
  match op with
  | "+" => .ok (a + b)
  | "-" => .ok (a - b)
  | "*" => .ok (a * b)
  | "/" => if b = 0 then .error .divisionByZero else .ok (a / b)
  | "^" => qpow a b
  | _ => .ok 0

/-- Denotation of an expression node.  Operand order is left then right,
matching the emission order of `gen` and the pop order of the VM. -/
def exprEval : AST → List (String × ℚ) → Except RunErr ℚ
  | .Num v, _ => .ok v
  | .Var x, env =>
    match lookupEnv x env with
    | some v => .ok v
    | none => .error (.undefinedVariable x)
  | .UnaryOp _ e, env =>
    match exprEval e env with
    | .error er => .error er
    | .ok a => .ok (-a)
  | .BinOp op l r, env =>
    match exprEval l env with
    | .error er => .error er
    | .ok a =>
      match exprEval r env with
      | .error er => .error er
      | .ok b => applyOp op a b
  | .Assign _ e, env => exprEval e env
  | .PrintStmt e, env => exprEval e env

/-- An AST that is a pure expression: built only from the four expression
variants (no nested assignment or print, hence no side effects). -/
def isExprB : AST → Bool
  | .Num _ => true
  | .Var _ => true
  | .UnaryOp _ e => isExprB e
  | .BinOp _ l r => isExprB l && isExprB r
  | .Assign _ _ => false
  | .PrintStmt _ => false

/-! ## Parser output invariants -/

/-- Every operator string stored in the tree is one the code generator
translates; in particular every UnaryOp carries "-". -/
def wfB : AST → Bool
  | .Num _ => true
  | .Var _ => true
  | .UnaryOp op e => op == "-" && wfB e
  | .BinOp op l r =>
    (op == "+" || op == "-" || op == "*" || op == "/" || op == "^") && wfB l && wfB r
  | .Assign _ e => wfB e
  | .PrintStmt e => wfB e

/-- No UnaryOp node of the tree carries the operator "+". -/
def unaryPlusFree : AST → Bool
  | .Num _ => true
  | .Var _ => true
  | .UnaryOp op e => !(op == "+") && unaryPlusFree e
  | .BinOp _ l r => unaryPlusFree l && unaryPlusFree r
  | .Assign _ e => unaryPlusFree e
  | .PrintStmt e => unaryPlusFree e


/-! ## Lookahead helpers for the trailing-token property -/

/-- The token kind the parser's `peek` sees (the lexer always terminates a
token list with EOF, so the empty case is unreachable from lexed input). -/
def peekT : List Token → TokT
  | [] => .EOF
  | t :: _ => t.t

/-- Token kinds that make one of the expression loops (`expr`, `term`) or
`power` continue past an already parsed operand. -/
def continuesExpr : TokT → Bool
  | .PLUS => true
  | .MINUS => true
  | .MUL => true
  | .DIV => true
  | .POW => true
  | _ => false


/-! ## Basic VM lemmas -/

theorem run_append_ok {c1 : List Instr} {st st1 : VMState} (c2 : List Instr)
    (h : run c1 st = (st1, none)) : run (c1 ++ c2) st = run c2 st1 := by
  induction c1 generalizing st with
  | nil =>
    simp only [run] at h
    cases h
    simp [run]
  | cons i c ih =>
    simp only [run, List.cons_append] at h ⊢
    cases hx : exec1 i st with
    | mk st2 err =>
      cases err with
      | none => rw [hx] at h; exact ih h
      | some e => rw [hx] at h; cases h

theorem run_append_err {c1 : List Instr} {st st1 : VMState} {er : RunErr} (c2 : List Instr)
    (h : run c1 st = (st1, some er)) : run (c1 ++ c2) st = (st1, some er) := by
  induction c1 generalizing st with
  | nil => simp only [run] at h; cases h
  | cons i c ih =>
    simp only [run, List.cons_append] at h ⊢
    cases hx : exec1 i st with
    | mk st2 err =>
      cases err with
      | none => rw [hx] at h; exact ih h
      | some e => rw [hx] at h; exact h

theorem lookupEnv_setEnv_same (x : String) (v : ℚ) (env : List (String × ℚ)) :
    lookupEnv x (setEnv x v env) = some v := by
  induction env with
  | nil => simp [setEnv, lookupEnv]
  | cons p r ih =>
    obtain ⟨y, w⟩ := p
    by_cases hy : y = x
    · subst hy; simp [setEnv, lookupEnv]
    · simp [setEnv, lookupEnv, hy, ih]

theorem exec1_bin {op : String} {i : Instr} (h : binInstr op = some i)
    (a b : ℚ) (st : VMState) :
    exec1 i { st with stack := b :: a :: st.stack } =
      (match applyOp op a b with
       | .ok v => ({ st with stack := v :: st.stack }, none)
       | .error er => (st, some er)) := by
  unfold binInstr at h
  split at h
  · cases h; simp [exec1, applyOp]
  · cases h; simp [exec1, applyOp]
  · cases h; simp [exec1, applyOp]
  · cases h
    by_cases hb : b = 0 <;> simp [exec1, applyOp, hb]
  · cases h
    cases hq : qpow a b <;> simp [exec1, applyOp, hq]
  · cases h

/-- Correctness of expression code: executing the code `gen` emits for a
pure expression, on any starting state, pushes exactly the denoted value
(success case) or stops with the denoted error, never touching the
environment or the output. -/
theorem gen_run (e : AST) :
    ∀ c st, isExprB e = true → gen e = .ok c →
      (∀ v, exprEval e st.env = .ok v →
        run c st = ({ st with stack := v :: st.stack }, none)) ∧
      (∀ er, exprEval e st.env = .error er →
        ∃ s1, run c st = ({ st with stack := s1 }, some er)) := by
  induction e with
  | Num v =>
    intro c st _ hg
    simp only [gen, Except.ok.injEq] at hg
    subst hg
    constructor
    · intro v0 hv
      simp only [exprEval, Except.ok.injEq] at hv
      subst hv
      simp [run, exec1]
    · intro er her
      simp [exprEval] at her
  | Var x =>
    intro c st _ hg
    simp only [gen, Except.ok.injEq] at hg
    subst hg
    cases hl : lookupEnv x st.env with
    | some w =>
      constructor
      · intro v hv
        simp only [exprEval, hl, Except.ok.injEq] at hv
        subst hv
        simp [run, exec1, hl]
      · intro er her
        simp [exprEval, hl] at her
    | none =>
      constructor
      · intro v hv
        simp [exprEval, hl] at hv
      · intro er her
        simp only [exprEval, hl, Except.error.injEq] at her
        subst her
        exact ⟨st.stack, by simp [run, exec1, hl]⟩
  | UnaryOp op e ih =>
    intro c st hx hg
    simp only [isExprB] at hx
    simp only [gen] at hg
    cases hge : gen e with
    | error er => rw [hge] at hg; cases hg
    | ok ce =>
      rw [hge] at hg
      by_cases hop : op = "-"
      · simp only [hop, if_true, Except.ok.injEq, reduceIte] at hg
        subst hg
        obtain ⟨ihok, iherr⟩ := ih ce st hx hge
        constructor
        · intro v hv
          simp only [exprEval] at hv
          cases hev : exprEval e st.env with
          | error er => rw [hev] at hv; cases hv
          | ok a =>
            rw [hev] at hv
            simp only [Except.ok.injEq] at hv
            subst hv
            rw [run_append_ok [Instr.NEG] (ihok a hev)]
            simp [run, exec1]
        · intro er her
          simp only [exprEval] at her
          cases hev : exprEval e st.env with
          | error er2 =>
            rw [hev] at her
            simp only [Except.error.injEq] at her
            subst her
            obtain ⟨s1, hs1⟩ := iherr er2 hev
            exact ⟨s1, run_append_err [Instr.NEG] hs1⟩
          | ok a => rw [hev] at her; cases her
      · simp [hop] at hg
  | BinOp op l r ihl ihr =>
    intro c st hx hg
    simp only [isExprB, Bool.and_eq_true] at hx
    simp only [gen] at hg
    cases hgl : gen l with
    | error er => cases hgr : gen r <;> rw [hgl, hgr] at hg <;> cases hg
    | ok cl =>
      cases hgr : gen r with
      | error er => rw [hgl, hgr] at hg; cases hg
      | ok cr =>
        rw [hgl, hgr] at hg
        cases hbi : binInstr op with
        | none => rw [hbi] at hg; cases hg
        | some i =>
          rw [hbi] at hg
          simp only [Except.ok.injEq] at hg
          subst hg
          obtain ⟨ihlok, ihlerr⟩ := ihl cl st hx.1 hgl
          obtain ⟨ihrok, ihrerr⟩ :=
            ihr cr { st with stack := (0 : ℚ) :: st.stack } hx.2 hgr
          constructor
          · intro v hv
            simp only [exprEval] at hv
            cases hel : exprEval l st.env with
            | error er => rw [hel] at hv; cases hv
            | ok a =>
              rw [hel] at hv
              cases her : exprEval r st.env with
              | error er => rw [her] at hv; cases hv
              | ok b =>
                rw [her] at hv
                have hv2 : applyOp op a b = .ok v := hv
                rw [List.append_assoc]
                rw [run_append_ok (cr ++ [i]) (ihlok a hel)]
                obtain ⟨ihrok2, _⟩ :=
                  ihr cr { st with stack := a :: st.stack } hx.2 hgr
                rw [run_append_ok [i] (ihrok2 b her)]
                simp only [run, exec1_bin hbi a b st]
                rw [hv2]
          · intro er her
            simp only [exprEval] at her
            cases hel : exprEval l st.env with
            | error er2 =>
              rw [hel] at her
              simp only [Except.error.injEq] at her
              subst her
              obtain ⟨s1, hs1⟩ := ihlerr er2 hel
              refine ⟨s1, ?_⟩
              rw [List.append_assoc]
              exact run_append_err (cr ++ [i]) hs1
            | ok a =>
              rw [hel] at her
              cases hre : exprEval r st.env with
              | error er2 =>
                rw [hre] at her
                simp only [Except.error.injEq] at her
                subst her
                obtain ⟨_, ihrerr2⟩ :=
                  ihr cr { st with stack := a :: st.stack } hx.2 hgr
                obtain ⟨s1, hs1⟩ := ihrerr2 er2 hre
                refine ⟨s1, ?_⟩
                rw [List.append_assoc]
                rw [run_append_ok (cr ++ [i]) (ihlok a hel)]
                exact run_append_err [i] hs1
              | ok b =>
                rw [hre] at her
                have her2 : applyOp op a b = .error er := her
                obtain ⟨ihrok2, _⟩ :=
                  ihr cr { st with stack := a :: st.stack } hx.2 hgr
                refine ⟨st.stack, ?_⟩
                rw [List.append_assoc]
                rw [run_append_ok (cr ++ [i]) (ihlok a hel)]
                rw [run_append_ok [i] (ihrok2 b hre)]
                simp only [run, exec1_bin hbi a b st]
                rw [her2]
  | Assign x e ih =>
    intro c st hx hg
    simp [isExprB] at hx
  | PrintStmt e ih =>
    intro c st hx hg
    simp [isExprB] at hx

theorem wfB_unaryPlusFree : ∀ e, wfB e = true → unaryPlusFree e = true := by
  intro e
  induction e <;> simp_all [wfB, unaryPlusFree]

theorem wfB_gen : ∀ e, wfB e = true → ∃ c, gen e = .ok c := by
  intro e
  induction e with
  | Num v => exact fun _ => ⟨_, rfl⟩
  | Var x => exact fun _ => ⟨_, rfl⟩
  | UnaryOp op e ih =>
    intro hw
    simp only [wfB, Bool.and_eq_true, beq_iff_eq] at hw
    obtain ⟨ce, hce⟩ := ih hw.2
    exact ⟨ce ++ [.NEG], by simp [gen, hce, hw.1]⟩
  | BinOp op l r ihl ihr =>
    intro hw
    simp only [wfB, Bool.and_eq_true, Bool.or_eq_true, beq_iff_eq] at hw
    obtain ⟨cl, hcl⟩ := ihl hw.1.2
    obtain ⟨cr, hcr⟩ := ihr hw.2
    rcases hw.1.1 with (((h | h) | h) | h) | h <;> subst h
    · exact ⟨cl ++ cr ++ [.ADD], by simp only [gen, hcl, hcr, binInstr]⟩
    · exact ⟨cl ++ cr ++ [.SUB], by simp only [gen, hcl, hcr, binInstr]⟩
    · exact ⟨cl ++ cr ++ [.MUL], by simp only [gen, hcl, hcr, binInstr]⟩
    · exact ⟨cl ++ cr ++ [.DIV], by simp only [gen, hcl, hcr, binInstr]⟩
    · exact ⟨cl ++ cr ++ [.POW], by simp only [gen, hcl, hcr, binInstr]⟩
  | Assign x e ih =>
    intro hw
    obtain ⟨ce, hce⟩ := ih hw
    exact ⟨ce ++ [.STORE x], by simp [gen, hce]⟩
  | PrintStmt e ih =>
    intro hw
    obtain ⟨ce, hce⟩ := ih hw
    exact ⟨ce ++ [.PRINT], by simp [gen, hce]⟩

/-- Every AST the parser returns is well formed: the recursive-descent
functions only ever store "-" in a UnaryOp and the five arithmetic
operator strings in a BinOp. -/
theorem parseWF : ∀ f : Nat,
    (∀ ts s r, parsePrimary f ts = .ok (s, r) → wfB s = true) ∧
    (∀ ts s r, parseUnary f ts = .ok (s, r) → wfB s = true) ∧
    (∀ ts s r, parsePower f ts = .ok (s, r) → wfB s = true) ∧
    (∀ n ts s r, wfB n = true → termLoop f n ts = .ok (s, r) → wfB s = true) ∧
    (∀ ts s r, parseTerm f ts = .ok (s, r) → wfB s = true) ∧
    (∀ n ts s r, wfB n = true → exprLoop f n ts = .ok (s, r) → wfB s = true) ∧
    (∀ ts s r, parseExpr f ts = .ok (s, r) → wfB s = true) ∧
    (∀ ts s r, parseStmt f ts = .ok (s, r) → wfB s = true) := by
  intro f
  induction f with
  | zero =>
    refine ⟨?_, ?_, ?_, ?_, ?_, ?_, ?_, ?_⟩
    · intro ts s r h; simp [parsePrimary] at h
    · intro ts s r h; simp [parseUnary] at h
    · intro ts s r h; simp [parsePower] at h
    · intro n ts s r hn h; simp [termLoop] at h
    · intro ts s r h; simp [parseTerm] at h
    · intro n ts s r hn h; simp [exprLoop] at h
    · intro ts s r h; simp [parseExpr] at h
    · intro ts s r h; simp [parseStmt] at h
  | succ f ih =>
    obtain ⟨ihPrim, ihUn, ihPow, ihTermL, ihTerm, ihExprL, ihExpr, _⟩ := ih
    have hPrim : ∀ ts s r, parsePrimary (f + 1) ts = .ok (s, r) → wfB s = true := by
      intro ts s r h
      simp only [parsePrimary] at h
      split at h
      · simp only [Except.ok.injEq, Prod.mk.injEq] at h
        obtain ⟨hs, -⟩ := h
        subst hs
        rfl
      · simp only [Except.ok.injEq, Prod.mk.injEq] at h
        obtain ⟨hs, -⟩ := h
        subst hs
        rfl
      · split at h
        · cases h
        · rename_i heq
          split at h
          · simp only [Except.ok.injEq, Prod.mk.injEq] at h
            obtain ⟨hs, -⟩ := h
            subst hs
            exact ihExpr _ _ _ heq
          · cases h
          · cases h
      · cases h
      · cases h
    have hUn : ∀ ts s r, parseUnary (f + 1) ts = .ok (s, r) → wfB s = true := by
      intro ts s r h
      simp only [parseUnary] at h
      split at h
      · exact ihUn _ _ _ h
      · split at h
        · cases h
        · rename_i heq
          simp only [Except.ok.injEq, Prod.mk.injEq] at h
          obtain ⟨hs, -⟩ := h
          subst hs
          simp only [wfB]
          rw [ihUn _ _ _ heq]
          decide
      · exact ihPrim _ _ _ h
    have hPow : ∀ ts s r, parsePower (f + 1) ts = .ok (s, r) → wfB s = true := by
      intro ts s r h
      simp only [parsePower] at h
      split at h
      · cases h
      · rename_i hu
        split at h
        · split at h
          · cases h
          · rename_i heq
            simp only [Except.ok.injEq, Prod.mk.injEq] at h
            obtain ⟨hs, -⟩ := h
            subst hs
            simp only [wfB]
            rw [ihUn _ _ _ hu, ihPow _ _ _ heq]
            decide
        · simp only [Except.ok.injEq, Prod.mk.injEq] at h
          obtain ⟨hs, -⟩ := h
          subst hs
          exact ihUn _ _ _ hu
    have hTermL : ∀ n ts s r, wfB n = true → termLoop (f + 1) n ts = .ok (s, r) →
        wfB s = true := by
      intro n ts s r hn h
      simp only [termLoop] at h
      split at h
      · split at h
        · cases h
        · rename_i heq
          refine ihTermL _ _ _ _ ?_ h
          simp only [wfB]
          rw [hn, ihPow _ _ _ heq]
          decide
      · split at h
        · cases h
        · rename_i heq
          refine ihTermL _ _ _ _ ?_ h
          simp only [wfB]
          rw [hn, ihPow _ _ _ heq]
          decide
      · simp only [Except.ok.injEq, Prod.mk.injEq] at h
        obtain ⟨hs, -⟩ := h
        subst hs
        exact hn
    have hTerm : ∀ ts s r, parseTerm (f + 1) ts = .ok (s, r) → wfB s = true := by
      intro ts s r h
      simp only [parseTerm] at h
      split at h
      · cases h
      · rename_i hp
        exact ihTermL _ _ _ _ (ihPow _ _ _ hp) h
    have hExprL : ∀ n ts s r, wfB n = true → exprLoop (f + 1) n ts = .ok (s, r) →
        wfB s = true := by
      intro n ts s r hn h
      simp only [exprLoop] at h
      split at h
      · split at h
        · cases h
        · rename_i heq
          refine ihExprL _ _ _ _ ?_ h
          simp only [wfB]
          rw [hn, ihTerm _ _ _ heq]
          decide
      · split at h
        · cases h
        · rename_i heq
          refine ihExprL _ _ _ _ ?_ h
          simp only [wfB]
          rw [hn, ihTerm _ _ _ heq]
          decide
      · simp only [Except.ok.injEq, Prod.mk.injEq] at h
        obtain ⟨hs, -⟩ := h
        subst hs
        exact hn
    have hExpr : ∀ ts s r, parseExpr (f + 1) ts = .ok (s, r) → wfB s = true := by
      intro ts s r h
      simp only [parseExpr] at h
      split at h
      · cases h
      · rename_i ht
        exact ihExprL _ _ _ _ (ihTerm _ _ _ ht) h
    have hStmt : ∀ ts s r, parseStmt (f + 1) ts = .ok (s, r) → wfB s = true := by
      intro ts s r h
      simp only [parseStmt] at h
      split at h
      · split at h
        · split at h
          · cases h
          · rename_i heq
            split at h
            · simp only [Except.ok.injEq, Prod.mk.injEq] at h
              obtain ⟨hs, -⟩ := h
              subst hs
              simpa only [wfB] using ihExpr _ _ _ heq
            · cases h
            · cases h
        · split at h
          · cases h
          · rename_i heq
            simp only [Except.ok.injEq, Prod.mk.injEq] at h
            obtain ⟨hs, -⟩ := h
            subst hs
            simpa only [wfB] using ihExpr _ _ _ heq
      · split at h
        · cases h
        · rename_i heq
          simp only [Except.ok.injEq, Prod.mk.injEq] at h
          obtain ⟨hs, -⟩ := h
          subst hs
          simpa only [wfB] using ihExpr _ _ _ heq
      · exact ihExpr _ _ _ h
    exact ⟨hPrim, hUn, hPow, hTermL, hTerm, hExprL, hExpr, hStmt⟩

/-- A statement consisting of one NUMBER token parses to its literal and
leaves every following token unconsumed, whatever those tokens are, as
long as the first of them cannot extend the expression. -/
theorem stmt_num (f : Nat) (v : ℚ) (p : Nat) (g : List Token)
    (h : continuesExpr (peekT g) = false) :
    parseStmt (f + 6) (⟨.NUMBER v, p⟩ :: g) = .ok (.Num v, g) := by
  cases g with
  | nil => rfl
  | cons t g1 =>
    obtain ⟨tt, tp⟩ := t
    cases tt <;> first
      | rfl
      | simp [peekT, continuesExpr] at h

/-! ## Claims

The four arithmetic primitives of the rational numbers are shipped
irreducible, which blocks the evaluation of concrete programs inside
`decide`; within this section they are restored to their definitional
behaviour (the kernel itself never depended on the attribute). -/

section Claims

attribute [local semireducible] Rat.add Rat.mul Rat.sub Rat.inv

/-- Claim C1 (evaluation at the failing input): compiling the bare
expression line "3+4" yields the BinOp tree, whose generated code is
PUSH 3, PUSH 4, ADD with no PRINT instruction, and executing it produces no
printed output, leaving 7 on the operand stack — the claimed auto-print
fallback of the generator is unreachable because the expression variants
are all matched before it. -/
theorem c1_bare_expression_prints_nothing :
    parseLine "3+4" = .ok (.BinOp "+" (.Num 3) (.Num 4), [⟨.EOF, 3⟩]) ∧
    gen (.BinOp "+" (.Num 3) (.Num 4)) = .ok [.PUSH 3, .PUSH 4, .ADD] ∧
    compileAndRun "3+4" ⟨[], [], []⟩ = (⟨[7], [], []⟩, none) ∧
    (compileAndRun "3+4" ⟨[], [], []⟩).1.out = [] := by
  refine ⟨by decide, by decide, by decide, by decide⟩

/-- Claim C2 (evaluation at the failing input): the bare-expression
statement "3+4" is a valid single-statement program that executes without
error, yet the operand stack afterwards is [7], not empty. -/
theorem c2_stack_not_empty_after_bare_expression :
    compileAndRun "3+4" ⟨[], [], []⟩ = (⟨[7], [], []⟩, none) ∧
    (compileAndRun "3+4" ⟨[], [], []⟩).1.stack ≠ [] := by
  refine ⟨by decide, by decide⟩

/-- Claim C3, counterexample: "-2^2" parses with the unary minus inside
the power node, not around it, and "print -2^2" prints 4, not -4. -/
theorem c3_counterexample :
    parseLine "-2^2" = .ok (.BinOp "^" (.UnaryOp "-" (.Num 2)) (.Num 2), [⟨.EOF, 4⟩]) ∧
    (AST.BinOp "^" (.UnaryOp "-" (.Num 2)) (.Num 2) ≠
      AST.UnaryOp "-" (.BinOp "^" (.Num 2) (.Num 2))) ∧
    compileAndRun "print -2^2" ⟨[], [], []⟩ = (⟨[], [], [4]⟩, none) ∧
    [(4 : ℚ)] ≠ [(-4 : ℚ)] := by
  refine ⟨by decide, by decide, by decide, by decide⟩

/-- Claim C3 as amended: the parser groups a leading unary minus tighter
than the power operator — "-2^2" parses as (-2)^2, and executing
"print -2^2" prints 4. -/
theorem c3_unary_binds_tighter_than_power :
    parseLine "-2^2" = .ok (.BinOp "^" (.UnaryOp "-" (.Num 2)) (.Num 2), [⟨.EOF, 4⟩]) ∧
    compileAndRun "print -2^2" ⟨[], [], []⟩ = (⟨[], [], [4]⟩, none) := by
  refine ⟨by decide, by decide⟩

/-- Claim C4, counterexample: "print (2+3)*4" prints 5, not the claimed
20 — after `print` the parser takes the parenthesized group as the whole
argument and silently drops the trailing "*4". -/
theorem c4_counterexample :
    compileAndRun "print (2+3)*4" ⟨[], [], []⟩ = (⟨[], [], [5]⟩, none) ∧
    [(5 : ℚ)] ≠ [(20 : ℚ)] := by
  refine ⟨by decide, by decide⟩

/-- Claim C4 as amended: "print 2+3*4" prints 14 and "print 2^3^2" prints
512 (power right-associative), but "print (2+3)*4" prints 5, because the
optional parenthesis rule of the print statement consumes "(2+3)" as the
entire argument and ignores the trailing "*4". -/
theorem c4_precedence :
    compileAndRun "print 2+3*4" ⟨[], [], []⟩ = (⟨[], [], [14]⟩, none) ∧
    compileAndRun "print 2^3^2" ⟨[], [], []⟩ = (⟨[], [], [512]⟩, none) ∧
    compileAndRun "print (2+3)*4" ⟨[], [], []⟩ = (⟨[], [], [5]⟩, none) ∧
    parseLine "print (2+3)*4" =
      .ok (.PrintStmt (.BinOp "+" (.Num 2) (.Num 3)),
        [⟨.MUL, 11⟩, ⟨.NUMBER 4, 12⟩, ⟨.EOF, 13⟩]) := by
  refine ⟨by decide, by decide, by decide, by decide⟩

/-- Claim C5: the code generator emits the left operand's code before the
right operand's and the VM pops the right operand first, so SUB computes
left-minus-right and DIV computes left-divided-by-right for every pair of
values, and "print 7-3" prints 4. -/
theorem c5_operand_order :
    (∀ (l r : AST) (cl cr : List Instr), gen l = .ok cl → gen r = .ok cr →
      gen (.BinOp "-" l r) = .ok (cl ++ cr ++ [.SUB]) ∧
      gen (.BinOp "/" l r) = .ok (cl ++ cr ++ [.DIV])) ∧
    (∀ (a b : ℚ) (st : VMState),
      run [.PUSH a, .PUSH b, .SUB] st = ({ st with stack := (a - b) :: st.stack }, none) ∧
      (b ≠ 0 →
        run [.PUSH a, .PUSH b, .DIV] st = ({ st with stack := (a / b) :: st.stack }, none))) ∧
    compileAndRun "print 7-3" ⟨[], [], []⟩ = (⟨[], [], [4]⟩, none) := by
  refine ⟨?_, ?_, by decide⟩
  · intro l r cl cr hl hr
    constructor <;> simp [gen, hl, hr, binInstr]
  · intro a b st
    constructor
    · simp [run, exec1]
    · intro hb
      simp [run, exec1, hb]

/-- Witness for C5 at concrete inputs 7 and 3. -/
theorem c5_operand_order_witness :
    gen (.BinOp "-" (.Num 7) (.Num 3)) = .ok ([.PUSH 7] ++ [.PUSH 3] ++ [.SUB]) ∧
    run [.PUSH 7, .PUSH 3, .DIV] ⟨[], [], []⟩ = (⟨[(7 : ℚ) / 3], [], []⟩, none) :=
  ⟨(c5_operand_order.1 (.Num 7) (.Num 3) [.PUSH 7] [.PUSH 3] rfl rfl).1,
   (c5_operand_order.2.1 7 3 ⟨[], [], []⟩).2 (by decide)⟩

/-- Claim C6: for every valid side-effect-free expression E, executing
"x = E" and then "print x" against the same starting environment prints
exactly the value that executing "print E" directly prints. -/
theorem c6_assign_print_roundtrip (E : AST) (env : List (String × ℚ))
    (cE : List Instr) (v : ℚ)
    (hx : isExprB E = true) (hg : gen E = .ok cE) (he : exprEval E env = .ok v) :
    gen (.Assign "x" E) = .ok (cE ++ [.STORE "x"]) ∧
    gen (.PrintStmt (.Var "x")) = .ok [.LOAD "x", .PRINT] ∧
    gen (.PrintStmt E) = .ok (cE ++ [.PRINT]) ∧
    run (cE ++ [.STORE "x"]) ⟨[], env, []⟩ = (⟨[], setEnv "x" v env, []⟩, none) ∧
    run [.LOAD "x", .PRINT] ⟨[], setEnv "x" v env, []⟩ =
      (⟨[], setEnv "x" v env, [v]⟩, none) ∧
    run (cE ++ [.PRINT]) ⟨[], env, []⟩ = (⟨[], env, [v]⟩, none) := by
  have hrun := (gen_run E cE ⟨[], env, []⟩ hx hg).1 v he
  refine ⟨by simp [gen, hg], by simp [gen], by simp [gen, hg], ?_, ?_, ?_⟩
  · rw [run_append_ok [Instr.STORE "x"] hrun]
    simp [run, exec1]
  · simp [run, exec1, lookupEnv_setEnv_same]
  · rw [run_append_ok [Instr.PRINT] hrun]
    simp [run, exec1]

/-- Witness for C6 at the concrete expression 3 and the empty
environment. -/
theorem c6_assign_print_roundtrip_witness :
    gen (.Assign "x" (.Num 3)) = .ok ([.PUSH 3] ++ [.STORE "x"]) ∧
    gen (.PrintStmt (.Var "x")) = .ok [.LOAD "x", .PRINT] ∧
    gen (.PrintStmt (.Num 3)) = .ok ([.PUSH 3] ++ [.PRINT]) ∧
    run ([.PUSH 3] ++ [.STORE "x"]) ⟨[], [], []⟩ = (⟨[], setEnv "x" 3 [], []⟩, none) ∧
    run [.LOAD "x", .PRINT] ⟨[], setEnv "x" 3 [], []⟩ =
      (⟨[], setEnv "x" 3 [], [3]⟩, none) ∧
    run ([.PUSH 3] ++ [.PRINT]) ⟨[], [], []⟩ = (⟨[], [], [3]⟩, none) :=
  c6_assign_print_roundtrip (.Num 3) [] [.PUSH 3] 3 rfl rfl rfl

/-- Claim C7: "print y" against the empty environment fails with the
undefined-variable error and the environment is still empty afterwards. -/
theorem c7_undefined_variable :
    compileAndRun "print y" ⟨[], [], []⟩ =
      (⟨[], [], []⟩, some (.exe (.undefinedVariable "y"))) := by
  decide

/-- Claim C8: "print 1/0" fails with the division-by-zero error and no
value is printed. -/
theorem c8_division_by_zero :
    compileAndRun "print 1/0" ⟨[], [], []⟩ = (⟨[], [], []⟩, some (.exe .divisionByZero)) ∧
    (compileAndRun "print 1/0" ⟨[], [], []⟩).1.out = [] := by
  refine ⟨by decide, by decide⟩

/-- Claim C9: the top-level parse returns after one complete statement
without requiring that all tokens were consumed — a NUMBER statement
followed by arbitrary trailing tokens (whose first one cannot extend the
expression) parses to the literal with the trailing tokens silently left
unconsumed and no error. -/
theorem c9_trailing_tokens_ignored (v : ℚ) (p : Nat) (g : List Token)
    (h : continuesExpr (peekT g) = false) :
    parse (⟨.NUMBER v, p⟩ :: g) = .ok (.Num v, g) := by
  have h12 : parseFuel (⟨.NUMBER v, p⟩ :: g) = 6 * g.length + 6 + 6 := by
    simp [parseFuel, List.length_cons]
    ring
  rw [parse, h12]
  exact stmt_num (6 * g.length + 6) v p g h

/-- Witness for C9 on the token sequence of the input "1 2": the parse
succeeds with the statement for "1" and the NUMBER 2 token left
unconsumed. -/
theorem c9_trailing_tokens_ignored_witness :
    lexer "1 2" = .ok [⟨.NUMBER 1, 0⟩, ⟨.NUMBER 2, 2⟩, ⟨.EOF, 3⟩] ∧
    parse [⟨.NUMBER 1, 0⟩, ⟨.NUMBER 2, 2⟩, ⟨.EOF, 3⟩] =
      .ok (.Num 1, [⟨.NUMBER 2, 2⟩, ⟨.EOF, 3⟩]) :=
  ⟨by decide, c9_trailing_tokens_ignored 1 0 [⟨.NUMBER 2, 2⟩, ⟨.EOF, 3⟩] (by decide)⟩

/-- Claim C10: unary plus is a parse-time identity — `unary` consumes a
leading PLUS token and recurses without building a node; consequently no
parser output contains a UnaryOp "+" node and the code generator's unary
"+" error branch is unreachable from parsed input (generation always
succeeds on parser output); concretely "+3+4" parses to the same AST as
"3+4". -/
theorem c10_unary_plus_identity :
    (∀ (f p : Nat) (ts : List Token),
      parseUnary (f + 1) (⟨.PLUS, p⟩ :: ts) = parseUnary f ts) ∧
    (∀ ts s r, parse ts = .ok (s, r) → unaryPlusFree s = true) ∧
    (∀ ts s r, parse ts = .ok (s, r) → ∃ c, gen s = .ok c) ∧
    (parseLine "+3+4").map Prod.fst = (parseLine "3+4").map Prod.fst := by
  refine ⟨?_, ?_, ?_, by decide⟩
  · intro f p ts
    rfl
  · intro ts s r h
    exact wfB_unaryPlusFree s ((parseWF (parseFuel ts)).2.2.2.2.2.2.2 ts s r h)
  · intro ts s r h
    exact wfB_gen s ((parseWF (parseFuel ts)).2.2.2.2.2.2.2 ts s r h)

/-- Witness for C10 on the parsed input "+3": the resulting statement has
no unary plus node and generates code successfully. -/
theorem c10_unary_plus_identity_witness :
    unaryPlusFree (.Num 3) = true ∧ (∃ c, gen (.Num 3) = .ok c) :=
  ⟨c10_unary_plus_identity.2.1 [⟨.PLUS, 0⟩, ⟨.NUMBER 3, 1⟩, ⟨.EOF, 2⟩] (.Num 3)
      [⟨.EOF, 2⟩] (by decide),
   c10_unary_plus_identity.2.2.1 [⟨.PLUS, 0⟩, ⟨.NUMBER 3, 1⟩, ⟨.EOF, 2⟩] (.Num 3)
      [⟨.EOF, 2⟩] (by decide)⟩

end Claims

end MiniCompiler
